import Mathlib

/-!
Shallow embedding of the `retry` Go package (file `retry.go`, latest revision:
the one defining `retrier`, `calculator`, `Jitter`, `Constant` and
`ExponentialBackoff`).

Modelling conventions:
* `time.Duration` values and the `float64` fields (`maxAttempts`, `attempts`,
  `attempt`) are modelled as exact rationals `ℚ`.  All arithmetic the code
  performs on them (increment by one, doubling, halving, tripling, `math.Min`,
  `randomBetween`) is exact on the values reachable in the program, and the
  spec itself treats the `float64 → time.Duration` sub-unit rounding as noise
  callers must tolerate, so the conversion is modelled as the identity.
* `rand.Float64()` returns a value in `[0, 1)`; each call that draws
  randomness takes the drawn value `r : ℚ` as an explicit argument and
  hypotheses on `r` encode that range where a proof needs it.
* `context.Context` is modelled by the inductive `Ctx`: `background` (its
  `Done` channel is nil and never fires), `withTimeout d` (the context
  installed by `context.WithTimeout(context.Background(), d)`), and
  `external` (any caller-supplied context).  A nil context pointer is
  `Option.none`.  The `select` between `ctx.Done()` and the interval timer is
  resolved by an oracle bit: for a background context the `Done` branch can
  never win (nil channel), for the other contexts the oracle decides the race.
-/

namespace Retry

/-- A model of `time.Duration`: nanoseconds, as an exact rational. -/
abbrev Dur : Type := ℚ

/-- Go's `time.Second` in nanoseconds. -/
def second : Dur := 1000000000

/-- Go's `time.Minute` in nanoseconds. -/
def minute : Dur := 60 * second

/-- `var defaultTimeoutDuration = time.Minute` from the source. -/
def defaultTimeoutDuration : Dur := minute

/-- `randomBetween(min, max) = rand.Float64()*(max-min) + min`, with the
draw `rand.Float64()` passed explicitly as `r`. -/
def randomBetween (r lo hi : ℚ) : ℚ := r * (hi - lo) + lo

/-- Model of a `context.Context` value held by the retrier. -/
inductive Ctx where
  | background
  | withTimeout (d : Dur)
  | external
deriving DecidableEq, Repr

/-- Outcome of the `select` race between `ctx.Done()` and the interval
timer: `true` means the `Done` branch won.  `context.Background()` has a nil
`Done` channel, so the timer branch always wins there; for any other context
the oracle bit decides. -/
def Ctx.doneWins : Ctx → Bool → Bool
  | .background, _ => false
  | .withTimeout _, o => o
  | .external, o => o

/-- The mutable state of a `*Jitter` used as a calculator: `Base`, `Max` and
the unexported `interval` field (zero value `0` before the first call). -/
structure JitterState where
  base : Dur
  max : Dur
  interval : Dur
deriving DecidableEq, Repr

/-- `func (j *Jitter) calc() time.Duration` from the source:

    if j.interval == 0 { j.interval = j.Base }
    d := time.Duration(math.Min(float64(j.Max),
          randomBetween(float64(j.Base), float64(j.interval)*3)))
    j.interval = d
    return d
-/
def JitterState.calc (j : JitterState) (r : ℚ) : Dur × JitterState :=
  let j := if j.interval = 0 then { j with interval := j.base } else j
  let d := min j.max (randomBetween r j.base (j.interval * 3))
  (d, { j with interval := d })

/-- The mutable state of a `*ExponentialBackoff` used as a calculator:
`Base`, `Max` and the unexported `attempt` counter.  `attempt` is a `float64`
in the source but only ever holds `0, 1, 2, …` (it starts at the zero value
and is incremented by one per call), so it is modelled as `ℕ`, which also
gives `math.Pow(2, attempt)` the exact meaning `2 ^ attempt`. -/
structure ExpBackoffState where
  base : Dur
  max : Dur
  attempt : ℕ
deriving DecidableEq, Repr

/-- `func (b *ExponentialBackoff) calc() time.Duration` from the source:

    b.attempt++
    temp := float64(b.Base) * math.Pow(2, b.attempt)
    return time.Duration(math.Min(float64(b.Max), randomBetween(temp/2, temp)))
-/
def ExpBackoffState.calc (b : ExpBackoffState) (r : ℚ) : Dur × ExpBackoffState :=
  let a := b.attempt + 1
  let temp := b.base * 2 ^ a
  (min b.max (randomBetween r (temp / 2) temp), { b with attempt := a })

/-- The `calculator` interface value owned by a retrier: one of the three
strategies, carrying its own mutable state.  `Constant.calc` just returns
the stored `Interval` and mutates nothing (value receiver in the source). -/
inductive Calc where
  | constant (interval : Dur)
  | jitter (j : JitterState)
  | expo (b : ExpBackoffState)
deriving DecidableEq, Repr

/-- Dynamic dispatch of `calc()` through the `calculator` interface. -/
def Calc.calc : Calc → ℚ → Dur × Calc
  | .constant i, _ => (i, .constant i)
  | .jitter j, r => let p := j.calc r; (p.1, .jitter p.2)
  | .expo b, r => let p := b.calc r; (p.1, .expo p.2)

/-- `type retrier struct { calculator; ctx context.Context;
maxAttempts float64; attempts float64 }`.  `maxAttempts` and `attempts` are
`float64` fields; they are modelled as `ℚ` (the program only ever stores a
configuration value in the former and `0, 1, 2, …` in the latter, on which
`float64` increment and equality are exact). -/
structure Retrier where
  calculator : Calc
  ctx : Option Ctx
  maxAttempts : ℚ
  attempts : ℚ
deriving DecidableEq, Repr

/-- The deferred `r.attempts++` that runs on every exit path of `Next`. -/
def Retrier.bump (s : Retrier) : Retrier :=
  { s with attempts := s.attempts + 1 }

/-- `func (r *retrier) Next() bool` from the source:

    defer func() { r.attempts++ }()
    if r.ctx == nil {
      if r.maxAttempts == 0 {
        ctx, cancel := context.WithTimeout(context.Background(), defaultTimeoutDuration)
        r.ctx = ctx
        go func() { <-ctx.Done(); cancel() }()
      } else {
        // Prefer max attempts over timeout.
        r.ctx = context.Background()
      }
    }
    if r.attempts == 0 { return true }
    if r.attempts == r.maxAttempts { return false }
    select {
    case <-r.ctx.Done():
      return false
    case <-time.After(time.Duration(r.calc())):
      return true
    }

`o` resolves the `select` race (see `Ctx.doneWins`), `r` is the random draw
consumed by `calc()`.  Go evaluates `time.After(time.Duration(r.calc()))`
before blocking in the `select`, so the calculator state is updated on both
branches of the race. -/
def Retrier.next (s : Retrier) (o : Bool) (r : ℚ) : Bool × Retrier :=
  let c : Ctx :=
    match s.ctx with
    | some c => c
    | none =>
        if s.maxAttempts = 0 then .withTimeout defaultTimeoutDuration
        else .background
  let s : Retrier := { s with ctx := some c }
  if s.attempts = 0 then (true, s.bump)
  else if s.attempts = s.maxAttempts then (false, s.bump)
  else
    let p := s.calculator.calc r
    let s : Retrier := { s with calculator := p.2 }
    if c.doneWins o then (false, s.bump) else (true, s.bump)

/-- A sequence of `Next()` calls driven by a list of (race oracle, random
draw) pairs; returns the list of booleans in call order and the final
retrier state. -/
def Retrier.run (s : Retrier) : List (Bool × ℚ) → List Bool × Retrier
  | [] => ([], s)
  | e :: tl =>
      let p := s.next e.1 e.2
      let q := p.2.run tl
      (p.1 :: q.1, q.2)

/-- The exported `Jitter` option struct.  `Context` is `none` for a nil
context; the unexported `interval` field has zero value `0` when the caller
builds the literal. -/
structure Jitter where
  Context : Option Ctx
  Base : Dur
  Max : Dur
  MaxAttempts : ℚ
  interval : Dur
deriving DecidableEq, Repr

/-- `func (j Jitter) new() retrier` from the source: defaults `Base` to one
second and `Max` to one minute when zero, then builds the retrier with `&j`
as calculator. -/
def Jitter.new (j : Jitter) : Retrier :=
  let j := if j.Base = 0 then { j with Base := second } else j
  let j := if j.Max = 0 then { j with Max := minute } else j
  { calculator := .jitter ⟨j.Base, j.Max, j.interval⟩
    ctx := j.Context
    maxAttempts := j.MaxAttempts
    attempts := 0 }

/-- The exported `Constant` option struct. -/
structure Constant where
  Context : Option Ctx
  Interval : Dur
  MaxAttempts : ℚ
deriving DecidableEq, Repr

/-- `func (c Constant) new() retrier` from the source: defaults `Interval`
to one second when zero. -/
def Constant.new (c : Constant) : Retrier :=
  let c := if c.Interval = 0 then { c with Interval := second } else c
  { calculator := .constant c.Interval
    ctx := c.Context
    maxAttempts := c.MaxAttempts
    attempts := 0 }

/-- The exported `ExponentialBackoff` option struct; the unexported
`attempt` field has zero value `0` when the caller builds the literal. -/
structure ExponentialBackoff where
  Context : Option Ctx
  Base : Dur
  Max : Dur
  MaxAttempts : ℚ
  attempt : ℕ
deriving DecidableEq, Repr

/-- `func (b ExponentialBackoff) new() retrier` from the source: defaults
`Base` to one second and `Max` to fifteen seconds when zero. -/
def ExponentialBackoff.new (b : ExponentialBackoff) : Retrier :=
  let b := if b.Base = 0 then { b with Base := second } else b
  let b := if b.Max = 0 then { b with Max := 15 * second } else b
  { calculator := .expo ⟨b.Base, b.Max, b.attempt⟩
    ctx := b.Context
    maxAttempts := b.MaxAttempts
    attempts := 0 }

/-- Modelled from the spec (for the refinement claim about the
decorrelated-jitter recurrence): "State: `currentInterval`, initialized to
`base` on first call.  Each call: `candidate = randomUniform(base,
currentInterval * 3)`; `result = min(max, candidate)`;
`currentInterval = result`; return `result`."  `none` is the
not-yet-initialized state. -/
def jitterSpecStep (base max : Dur) (cur : Option Dur) (r : ℚ) :
    Dur × Option Dur :=
  let c := cur.getD base
  let result := min max (randomBetween r base (c * 3))
  (result, some result)

/-- Output sequence of repeated `Jitter.calc` calls on a given draw list. -/
def jitterOutputs (j : JitterState) : List ℚ → List Dur
  | [] => []
  | r :: rs =>
      let p := j.calc r
      p.1 :: jitterOutputs p.2 rs

/-- Output sequence of the spec-modelled jitter recurrence. -/
def jitterSpecOutputs (base max : Dur) (cur : Option Dur) :
    List ℚ → List Dur
  | [] => []
  | r :: rs =>
      let p := jitterSpecStep base max cur r
      p.1 :: jitterSpecOutputs base max p.2 rs

/-! ### Helper lemmas -/

/-- The deferred `r.attempts++` runs on every exit path of `Next`, so one
call adds exactly one to the counter. -/
theorem Retrier.next_attempts (s : Retrier) (o : Bool) (r : ℚ) :
    (s.next o r).2.attempts = s.attempts + 1 := by
  rcases s with ⟨cal, ctx, m, a⟩
  cases ctx <;> simp only [Retrier.next, Retrier.bump] <;>
    split_ifs <;> rfl

/-- Running a list of calls adds the list length to the counter. -/
theorem Retrier.run_attempts (L : List (Bool × ℚ)) (s : Retrier) :
    (s.run L).2.attempts = s.attempts + L.length := by
  induction L generalizing s with
  | nil => simp [Retrier.run]
  | cons e tl ih =>
      simp only [Retrier.run, ih, Retrier.next_attempts, List.length_cons]
      push_cast
      ring

/-- `Next` never writes the `maxAttempts` field. -/
theorem Retrier.next_maxAttempts (s : Retrier) (o : Bool) (r : ℚ) :
    (s.next o r).2.maxAttempts = s.maxAttempts := by
  rcases s with ⟨cal, ctx, m, a⟩
  cases ctx <;> simp only [Retrier.next, Retrier.bump] <;>
    split_ifs <;> rfl

/-- `Next` only writes `ctx` when it was nil. -/
theorem Retrier.next_ctx_of_some (s : Retrier) (o : Bool) (r : ℚ) (c : Ctx)
    (h : s.ctx = some c) : (s.next o r).2.ctx = some c := by
  rcases s with ⟨cal, ctx, m, a⟩
  dsimp only at h
  subst h
  simp only [Retrier.next, Retrier.bump]
  split_ifs <;> rfl

/-- On the two early-return branches (first call, attempts bound reached)
`Next` does not touch the calculator. -/
theorem Retrier.next_calculator_frame (s : Retrier) (o : Bool) (r : ℚ)
    (h : s.attempts = 0 ∨ s.attempts = s.maxAttempts) :
    (s.next o r).2.calculator = s.calculator := by
  rcases s with ⟨cal, ctx, m, a⟩
  dsimp only at h
  rcases h with h | h <;> subst h <;> cases ctx <;>
    simp only [Retrier.next, Retrier.bump] <;> split_ifs <;> rfl

/-- First call on a retrier with nil context and a non-zero attempts bound:
returns `true`, installs `context.Background()`. -/
theorem Retrier.next_first_bg (cal : Calc) (m : ℚ) (o : Bool) (r : ℚ)
    (hm : m ≠ 0) :
    Retrier.next ⟨cal, none, m, 0⟩ o r
      = (true, ⟨cal, some .background, m, 1⟩) := by
  simp only [Retrier.next, Retrier.bump, hm, if_false, if_pos rfl]
  norm_num

/-- A mid-loop call on a retrier whose context is `context.Background()`:
the `Done` branch of the `select` can never win, so the call returns `true`
after the wait, having consumed one random draw in the calculator. -/
theorem Retrier.next_background_mid (cal : Calc) (m a : ℚ) (o : Bool)
    (r : ℚ) (h0 : a ≠ 0) (hm : a ≠ m) :
    Retrier.next ⟨cal, some .background, m, a⟩ o r
      = (true, ⟨(cal.calc r).2, some .background, m, a + 1⟩) := by
  simp only [Retrier.next, Retrier.bump, Ctx.doneWins, h0, hm, if_false]
  norm_num

/-- The call made when the counter has reached the attempts bound returns
`false` before the `select`. -/
theorem Retrier.next_exhaust (cal : Calc) (c : Ctx) (m : ℚ) (o : Bool)
    (r : ℚ) (h0 : m ≠ 0) :
    Retrier.next ⟨cal, some c, m, m⟩ o r
      = (false, ⟨cal, some c, m, m + 1⟩) := by
  simp only [Retrier.next, Retrier.bump, h0, if_false, if_pos rfl, if_true]

/-- Once the context is `context.Background()` and the integer-valued
counter can never meet the attempts bound again, every call returns
`true`. -/
theorem Retrier.run_background_true (m : ℚ)
    (hm : ∀ n : ℕ, 0 < n → (n : ℚ) ≠ m) (L : List (Bool × ℚ)) :
    ∀ (cal : Calc) (k : ℕ), 0 < k →
      (Retrier.run ⟨cal, some .background, m, (k : ℚ)⟩ L).1
        = List.replicate L.length true := by
  induction L with
  | nil => intro cal k hk; rfl
  | cons e tl ih =>
      intro cal k hk
      have h0 : ((k : ℚ)) ≠ 0 := Nat.cast_ne_zero.mpr hk.ne'
      have hcast : (k : ℚ) + 1 = ((k + 1 : ℕ) : ℚ) := by push_cast; ring
      simp only [Retrier.run, Retrier.next_background_mid cal m (k : ℚ) e.1
        e.2 h0 (hm k hk), List.length_cons, List.replicate_succ, hcast]
      simp only [List.cons.injEq, true_and]
      exact ih (cal.calc e.2).2 (k + 1) k.succ_pos

/-- Counting version: starting mid-loop at counter `k ≤ N` with a
background context and bound `N`, the remaining `N - k + 1` calls yield
`N - k` times `true` and then one `false`. -/
theorem Retrier.run_background_count (N : ℕ) (hN : 0 < N)
    (L : List (Bool × ℚ)) :
    ∀ (cal : Calc) (k : ℕ), 0 < k → k ≤ N → L.length = N - k + 1 →
      (Retrier.run ⟨cal, some .background, (N : ℚ), (k : ℚ)⟩ L).1
        = List.replicate (N - k) true ++ [false] := by
  induction L with
  | nil => intro cal k _ _ hL; simp at hL
  | cons e tl ih =>
      intro cal k hk hkN hL
      rcases eq_or_lt_of_le hkN with rfl | hlt
      · have h0 : ((k : ℚ)) ≠ 0 := Nat.cast_ne_zero.mpr hk.ne'
        have htl : tl = [] := by
          rw [List.length_cons, Nat.sub_self] at hL
          exact List.length_eq_zero.mp (by omega)
        subst htl
        simp only [Retrier.run, Retrier.next_exhaust cal .background (k : ℚ)
          e.1 e.2 h0, Nat.sub_self, List.replicate, List.nil_append]
      · have h0 : ((k : ℚ)) ≠ 0 := Nat.cast_ne_zero.mpr hk.ne'
        have hkm : ((k : ℚ)) ≠ ((N : ℚ)) := by
          exact_mod_cast fun h => absurd (Nat.cast_injective h) hlt.ne
        have hcast : (k : ℚ) + 1 = ((k + 1 : ℕ) : ℚ) := by push_cast; ring
        have hsub : N - k = (N - (k + 1)) + 1 := by omega
        simp only [Retrier.run, Retrier.next_background_mid cal (N : ℚ)
          (k : ℚ) e.1 e.2 h0 hkm, hcast, hsub, List.replicate_succ,
          List.cons_append, List.cons.injEq, true_and]
        have htl : tl.length = N - (k + 1) + 1 := by
          simp only [List.length_cons] at hL
          omega
        exact ih (cal.calc e.2).2 (k + 1) k.succ_pos (by omega) htl

/-- One `Jitter.calc` step, written out, when the `interval` field still
holds its zero value. -/
theorem JitterState.calc_zero (B M : Dur) (r : ℚ) :
    JitterState.calc ⟨B, M, 0⟩ r
      = (min M (randomBetween r B (B * 3)),
         ⟨B, M, min M (randomBetween r B (B * 3))⟩) := by
  simp [JitterState.calc]

/-- One `Jitter.calc` step, written out, when the `interval` field is
non-zero. -/
theorem JitterState.calc_pos (B M i : Dur) (r : ℚ) (hi : i ≠ 0) :
    JitterState.calc ⟨B, M, i⟩ r
      = (min M (randomBetween r B (i * 3)),
         ⟨B, M, min M (randomBetween r B (i * 3))⟩) := by
  simp [JitterState.calc, hi]

/-- `randomBetween` does not go below its lower end when the range is
non-empty and the draw is non-negative. -/
theorem randomBetween_ge (r lo hi : ℚ) (hr : 0 ≤ r) (h : lo ≤ hi) :
    lo ≤ randomBetween r lo hi := by
  simp only [randomBetween]
  nlinarith

/-- Trace agreement between the source `Jitter.calc` and the spec's
decorrelated-jitter recurrence, by induction with the coupling invariant
(zero sentinel ↔ uninitialized, otherwise equal stored intervals within
`[base, max]`). -/
theorem jitter_agree_aux (B M : Dur) (hB : 0 < B) (hBM : B ≤ M)
    (rs : List ℚ) :
    ∀ (i : Dur) (cur : Option Dur),
      (∀ r ∈ rs, 0 ≤ r) →
      (i = 0 ∧ cur = none ∨ B ≤ i ∧ i ≤ M ∧ cur = some i) →
      jitterOutputs ⟨B, M, i⟩ rs = jitterSpecOutputs B M cur rs := by
  induction rs with
  | nil => intro i cur _ _; rfl
  | cons r rs ih =>
      intro i cur hr hinv
      have hr0 : 0 ≤ r := hr r (List.mem_cons_self r rs)
      have hrs : ∀ x ∈ rs, 0 ≤ x := fun x hx => hr x (List.mem_cons_of_mem r hx)
      rcases hinv with ⟨rfl, rfl⟩ | ⟨hBi, hiM, rfl⟩
      · have hx : B ≤ randomBetween r B (B * 3) :=
          randomBetween_ge r B (B * 3) hr0 (by linarith)
        have hd : B ≤ min M (randomBetween r B (B * 3)) := le_min hBM hx
        rw [jitterOutputs, jitterSpecOutputs, JitterState.calc_zero]
        show _ :: _ = _
        rw [jitterSpecStep]
        refine congrArg (List.cons _) ?_
        exact ih _ _ hrs (Or.inr ⟨hd, min_le_left _ _, rfl⟩)
      · have hi0 : i ≠ 0 := ne_of_gt (lt_of_lt_of_le hB hBi)
        have hx : B ≤ randomBetween r B (i * 3) :=
          randomBetween_ge r B (i * 3) hr0 (by linarith)
        have hd : B ≤ min M (randomBetween r B (i * 3)) := le_min hBM hx
        rw [jitterOutputs, jitterSpecOutputs, JitterState.calc_pos B M i r hi0]
        show _ :: _ = _
        rw [jitterSpecStep]
        refine congrArg (List.cons _) ?_
        exact ih _ _ hrs (Or.inr ⟨hd, min_le_left _ _, rfl⟩)

/-- Range invariant for `Jitter.calc` traces: every output stays in
`[base, max]`. -/
theorem jitter_bounds_aux (B M : Dur) (hB : 0 ≤ B) (hBM : B ≤ M)
    (rs : List ℚ) :
    ∀ (i : Dur), (∀ r ∈ rs, 0 ≤ r) → (i = 0 ∨ B ≤ i ∧ i ≤ M) →
      ∀ d ∈ jitterOutputs ⟨B, M, i⟩ rs, B ≤ d ∧ d ≤ M := by
  induction rs with
  | nil => intro i _ _ d hd; simp [jitterOutputs] at hd
  | cons r rs ih =>
      intro i hr hinv d hd
      have hr0 : 0 ≤ r := hr r (List.mem_cons_self r rs)
      have hrs : ∀ x ∈ rs, 0 ≤ x := fun x hx => hr x (List.mem_cons_of_mem r hx)
      by_cases hi0 : i = 0
      · subst hi0
        have hx : B ≤ randomBetween r B (B * 3) :=
          randomBetween_ge r B (B * 3) hr0 (by linarith)
        have hdB : B ≤ min M (randomBetween r B (B * 3)) := le_min hBM hx
        rw [jitterOutputs, JitterState.calc_zero] at hd
        rcases List.mem_cons.mp hd with rfl | hmem
        · exact ⟨hdB, min_le_left _ _⟩
        · exact ih _ hrs (Or.inr ⟨hdB, min_le_left _ _⟩) d hmem
      · have hBi : B ≤ i := ((hinv.resolve_left hi0)).1
        have hx : B ≤ randomBetween r B (i * 3) :=
          randomBetween_ge r B (i * 3) hr0 (by linarith)
        have hdB : B ≤ min M (randomBetween r B (i * 3)) := le_min hBM hx
        rw [jitterOutputs, JitterState.calc_pos B M i r hi0] at hd
        rcases List.mem_cons.mp hd with rfl | hmem
        · exact ⟨hdB, min_le_left _ _⟩
        · exact ih _ hrs (Or.inr ⟨hdB, min_le_left _ _⟩) d hmem

/-! ### Claim theorems -/

/-- C1: a retrier built with a nil `Context` gets its cancellation signal
lazily on the first `Next()` call, not at construction: with
`maxAttempts = 0` a context carrying the `defaultTimeoutDuration` deadline
is installed, with `maxAttempts ≠ 0` a plain background context with no
timeout, so an explicit attempts bound is never truncated by the implicit
default timeout.  The three constructors themselves copy the (possibly
nil) configured context unchanged, which is the "not at construction"
half. -/
theorem claim_C1_lazy_context (s : Retrier) (o : Bool) (r : ℚ)
    (c : Constant) (j : Jitter) (b : ExponentialBackoff)
    (h : s.ctx = none) :
    (s.next o r).2.ctx
        = some (if s.maxAttempts = 0 then Ctx.withTimeout defaultTimeoutDuration
                else Ctx.background)
      ∧ (Constant.new c).ctx = c.Context
      ∧ (Jitter.new j).ctx = j.Context
      ∧ (ExponentialBackoff.new b).ctx = b.Context := by
  refine ⟨?_, ?_, ?_, ?_⟩
  · rcases s with ⟨cal, ctx, m, a⟩
    dsimp only at h
    subst h
    simp only [Retrier.next, Retrier.bump]
    split_ifs <;> rfl
  · by_cases h1 : c.Interval = 0 <;> simp [Constant.new, h1]
  · by_cases h1 : j.Base = 0 <;> by_cases h2 : j.Max = 0 <;>
      simp [Jitter.new, h1, h2]
  · by_cases h1 : b.Base = 0 <;> by_cases h2 : b.Max = 0 <;>
      simp [ExponentialBackoff.new, h1, h2]

/-- Witness for C1 at concrete inputs (one retrier with `maxAttempts = 0`,
plus one configuration per strategy). -/
theorem claim_C1_lazy_context_witness :
    (Retrier.next ⟨Calc.constant second, none, 0, 0⟩ false 0).2.ctx
        = some (if (0 : ℚ) = 0 then Ctx.withTimeout defaultTimeoutDuration
                else Ctx.background)
      ∧ (Constant.new ⟨none, 0, 0⟩).ctx = none
      ∧ (Jitter.new ⟨none, 0, 0, 0, 0⟩).ctx = none
      ∧ (ExponentialBackoff.new ⟨none, 0, 0, 0, 0⟩).ctx = none :=
  claim_C1_lazy_context ⟨Calc.constant second, none, 0, 0⟩ false 0
    ⟨none, 0, 0⟩ ⟨none, 0, 0, 0, 0⟩ ⟨none, 0, 0, 0, 0⟩ rfl

/-- C2: with `MaxAttempts = N > 0` and no context supplied, a run of
`N + 1` calls to `Next()` returns `true` exactly `N` times and then
`false`, for every race oracle and every sequence of random draws and
every calculator: the background context installed on the first call can
never preempt the attempts bound, so no default timeout truncates the
loop however large the configured interval is. -/
theorem claim_C2_max_attempts_exact (s : Retrier) (N : ℕ)
    (L : List (Bool × ℚ)) (hN : 0 < N) (hctx : s.ctx = none)
    (ha : s.attempts = 0) (hm : s.maxAttempts = (N : ℚ))
    (hL : L.length = N + 1) :
    (s.run L).1 = List.replicate N true ++ [false] := by
  rcases s with ⟨cal, ctx, m, a⟩
  dsimp only at hctx ha hm
  subst hctx; subst ha; subst hm
  cases L with
  | nil => simp only [List.length_nil] at hL; omega
  | cons e tl =>
      have hm0 : ((N : ℚ)) ≠ 0 := Nat.cast_ne_zero.mpr hN.ne'
      have htl : tl.length = N - 1 + 1 := by
        simp only [List.length_cons] at hL
        omega
      have hrun := Retrier.run_background_count N hN tl cal 1 one_pos hN htl
      rw [Nat.cast_one] at hrun
      have hrep : List.replicate N true ++ [false]
          = true :: (List.replicate (N - 1) true ++ [false]) := by
        conv_lhs => rw [show N = (N - 1) + 1 by omega]
        simp [List.replicate_succ]
      simp only [Retrier.run,
        Retrier.next_first_bg cal (N : ℚ) e.1 e.2 hm0, hrep]
      exact congrArg (List.cons true) hrun

/-- Witness for C2: `Constant{Interval: 1ns, MaxAttempts: 3}`-shaped state
run for four calls. -/
theorem claim_C2_max_attempts_exact_witness :
    (Retrier.run ⟨Calc.constant 1, none, 3, 0⟩
        [(false, 0), (true, 0), (false, 1/2), (false, 0)]).1
      = List.replicate 3 true ++ [false] :=
  claim_C2_max_attempts_exact ⟨Calc.constant 1, none, 3, 0⟩ 3
    [(false, 0), (true, 0), (false, 1/2), (false, 0)]
    (by norm_num) rfl rfl (by norm_num) rfl

/-- C3: whenever the attempts counter is `0` (the first call), `Next()`
returns `true` through the early branch, leaving the calculator state
untouched (the wait and the `calc()` call are not reached), for every
strategy and configuration. -/
theorem claim_C3_first_call_true (s : Retrier) (o : Bool) (r : ℚ)
    (h : s.attempts = 0) :
    (s.next o r).1 = true ∧ (s.next o r).2.calculator = s.calculator := by
  refine ⟨?_, Retrier.next_calculator_frame s o r (Or.inl h)⟩
  rcases s with ⟨cal, ctx, m, a⟩
  dsimp only at h
  subst h
  cases ctx <;> simp only [Retrier.next, Retrier.bump] <;>
    split_ifs <;> rfl

/-- Witness for C3 at a concrete input. -/
theorem claim_C3_first_call_true_witness :
    (Retrier.next ⟨Calc.expo ⟨1, 15, 0⟩, none, 0, 0⟩ true (1/2)).1 = true
      ∧ (Retrier.next ⟨Calc.expo ⟨1, 15, 0⟩, none, 0, 0⟩ true
          (1/2)).2.calculator = Calc.expo ⟨1, 15, 0⟩ :=
  claim_C3_first_call_true ⟨Calc.expo ⟨1, 15, 0⟩, none, 0, 0⟩ true (1/2) rfl

/-- C4: in a retrier with a positive attempts bound, the call made when
the counter equals the bound returns `false` through the early branch,
before the wait/`select` step — witnessed by the calculator state being
untouched. -/
theorem claim_C4_exhausted_false (s : Retrier) (o : Bool) (r : ℚ)
    (h : s.attempts = s.maxAttempts) (hpos : 0 < s.maxAttempts) :
    (s.next o r).1 = false ∧ (s.next o r).2.calculator = s.calculator := by
  refine ⟨?_, Retrier.next_calculator_frame s o r (Or.inr h)⟩
  have h0 : s.attempts ≠ 0 := by
    rw [h]
    exact ne_of_gt hpos
  rcases s with ⟨cal, ctx, m, a⟩
  dsimp only at h h0
  subst h
  cases ctx <;>
    simp only [Retrier.next, Retrier.bump, h0, if_false, if_pos rfl] <;>
    split_ifs <;> rfl

/-- Witness for C4 at a concrete input. -/
theorem claim_C4_exhausted_false_witness :
    (Retrier.next ⟨Calc.constant 1, some .external, 2, 2⟩ true 0).1 = false
      ∧ (Retrier.next ⟨Calc.constant 1, some .external, 2, 2⟩ true
          0).2.calculator = Calc.constant 1 :=
  claim_C4_exhausted_false ⟨Calc.constant 1, some .external, 2, 2⟩ true 0
    rfl (by norm_num)

/-- C5: every `Next()` call adds exactly one to the attempts counter (the
deferred increment runs on every exit path), and hence a run of `n` calls
adds exactly `n`; the counter is monotonically non-decreasing over the
driver's lifetime. -/
theorem claim_C5_increment_per_call (s : Retrier) (o : Bool) (r : ℚ)
    (L : List (Bool × ℚ)) :
    (s.next o r).2.attempts = s.attempts + 1
      ∧ (s.run L).2.attempts = s.attempts + L.length :=
  ⟨Retrier.next_attempts s o r, Retrier.run_attempts L s⟩

/-- C6: the source `Jitter.calc` implements the decorrelated-jitter
recurrence of the spec — state initialized to `base` on the first call,
then `result = min(max, randomUniform(base, currentInterval * 3))`, stored
and returned — as trace equality on every draw sequence, for any
configuration with `0 < base ≤ max`. -/
theorem claim_C6_jitter_recurrence (B M : Dur) (rs : List ℚ)
    (hB : 0 < B) (hBM : B ≤ M) (hr : ∀ r ∈ rs, 0 ≤ r) :
    jitterOutputs ⟨B, M, 0⟩ rs = jitterSpecOutputs B M none rs :=
  jitter_agree_aux B M hB hBM rs 0 none hr (Or.inl ⟨rfl, rfl⟩)

/-- Witness for C6 at a concrete input. -/
theorem claim_C6_jitter_recurrence_witness :
    jitterOutputs ⟨1, 2, 0⟩ [1/2, 1/3]
      = jitterSpecOutputs 1 2 none [1/2, 1/3] :=
  claim_C6_jitter_recurrence 1 2 [1/2, 1/3] one_pos (by norm_num)
    (by norm_num)

/-- C7: for a jitter calculator with `0 ≤ base ≤ max`, every returned
value of every `calc()` call lies in the closed interval `[base, max]`,
for every sequence of random draws. -/
theorem claim_C7_jitter_range (B M : Dur) (rs : List ℚ)
    (hB : 0 ≤ B) (hBM : B ≤ M) (hr : ∀ r ∈ rs, 0 ≤ r) :
    ∀ d ∈ jitterOutputs ⟨B, M, 0⟩ rs, B ≤ d ∧ d ≤ M :=
  jitter_bounds_aux B M hB hBM rs 0 hr (Or.inl rfl)

/-- Witness for C7: the single output of a concrete one-draw run is `2`,
inside `[1, 2]`. -/
theorem claim_C7_jitter_range_witness :
    (1 : ℚ) ≤ 2 ∧ (2 : ℚ) ≤ 2 :=
  claim_C7_jitter_range 1 2 [1/2] (by norm_num) (by norm_num)
    (by norm_num) 2
    (by
      have h : jitterOutputs ⟨1, 2, 0⟩ [1/2] = [2] := by
        norm_num [jitterOutputs, JitterState.calc, randomBetween]
      rw [h]
      exact List.mem_singleton.mpr rfl)

/-- C8: `ExponentialBackoff.calc` adds one to its private attempt counter
(which starts at the Go zero value `0` by construction), computes
`temp = base * 2 ^ attempt` for the incremented counter, returns
`min(max, randomUniform(temp/2, temp))`, and hence its result never
exceeds `max`, for every call and every random draw. -/
theorem claim_C8_expbackoff_step (b : ExpBackoffState) (r : ℚ) :
    (b.calc r).2 = { b with attempt := b.attempt + 1 }
      ∧ (b.calc r).1
          = min b.max (randomBetween r (b.base * 2 ^ (b.attempt + 1) / 2)
              (b.base * 2 ^ (b.attempt + 1)))
      ∧ (b.calc r).1 ≤ b.max :=
  ⟨rfl, rfl, min_le_left _ _⟩

/-- C9: with a nil context and a positive non-integer `MaxAttempts` (its
rational denominator is not `1`), the integer-valued attempts counter
never meets the bound and the non-zero bound suppresses the default
timeout, so every `Next()` call returns `true`: the loop never stops. -/
theorem claim_C9_noninteger_max_never_stops (s : Retrier)
    (L : List (Bool × ℚ)) (hctx : s.ctx = none) (ha : s.attempts = 0)
    (hpos : 0 < s.maxAttempts)
    (hint : ¬∃ n : ℤ, (n : ℚ) = s.maxAttempts) :
    (s.run L).1 = List.replicate L.length true := by
  rcases s with ⟨cal, ctx, m, a⟩
  dsimp only at hctx ha hpos hint
  subst hctx; subst ha
  have hm0 : m ≠ 0 := by
    intro h
    exact hint ⟨0, by rw [h]; norm_num⟩
  have hmn : ∀ n : ℕ, 0 < n → (n : ℚ) ≠ m := by
    intro n _ h
    exact hint ⟨(n : ℤ), by push_cast; exact h⟩
  cases L with
  | nil => rfl
  | cons e tl =>
      have hrun := Retrier.run_background_true m hmn tl cal 1 one_pos
      rw [Nat.cast_one] at hrun
      simp only [Retrier.run, Retrier.next_first_bg cal m e.1 e.2 hm0,
        List.length_cons, List.replicate_succ]
      exact congrArg (List.cons true) hrun

/-- Witness for C9: `MaxAttempts = 5/2` (the claim's example `2.5`), three
calls, all `true`. -/
theorem claim_C9_noninteger_max_never_stops_witness :
    (Retrier.run ⟨Calc.constant 1, none, 5/2, 0⟩
        [(true, 0), (false, 0), (true, 1/2)]).1
      = List.replicate 3 true :=
  claim_C9_noninteger_max_never_stops ⟨Calc.constant 1, none, 5/2, 0⟩
    [(true, 0), (false, 0), (true, 1/2)] rfl rfl (by norm_num)
    (by
      rintro ⟨n, h⟩
      have h3 : ((n * 2 : ℤ) : ℚ) = ((5 : ℤ) : ℚ) := by push_cast; linarith
      have h4 : n * 2 = 5 := by exact_mod_cast h3
      omega)

/-- C10: a `Next()` call that returns through the first-call branch or
the attempts-bound branch leaves the calculator untouched; moreover no
call ever writes `maxAttempts`, and `ctx` is only written when it was
nil. -/
theorem claim_C10_early_return_frame (s : Retrier) (o : Bool) (r : ℚ)
    (c : Ctx) :
    ((s.attempts = 0 ∨ s.attempts = s.maxAttempts) →
        (s.next o r).2.calculator = s.calculator)
      ∧ (s.next o r).2.maxAttempts = s.maxAttempts
      ∧ (s.ctx = some c → (s.next o r).2.ctx = some c) :=
  ⟨Retrier.next_calculator_frame s o r,
   Retrier.next_maxAttempts s o r,
   Retrier.next_ctx_of_some s o r c⟩

/-- Witness for C10 at a concrete input (first-call branch, context
already present). -/
theorem claim_C10_early_return_frame_witness :
    (Retrier.next ⟨Calc.jitter ⟨1, 2, 0⟩, some .background, 3, 0⟩ false
        0).2.calculator = Calc.jitter ⟨1, 2, 0⟩
      ∧ (Retrier.next ⟨Calc.jitter ⟨1, 2, 0⟩, some .background, 3, 0⟩ false
          0).2.maxAttempts = 3
      ∧ (Retrier.next ⟨Calc.jitter ⟨1, 2, 0⟩, some .background, 3, 0⟩ false
          0).2.ctx = some .background :=
  ⟨(claim_C10_early_return_frame ⟨Calc.jitter ⟨1, 2, 0⟩, some .background,
      3, 0⟩ false 0 .background).1 (Or.inl rfl),
   (claim_C10_early_return_frame ⟨Calc.jitter ⟨1, 2, 0⟩, some .background,
      3, 0⟩ false 0 .background).2.1,
   (claim_C10_early_return_frame ⟨Calc.jitter ⟨1, 2, 0⟩, some .background,
      3, 0⟩ false 0 .background).2.2 rfl⟩

end Retry
